import Mathlib

/-!
# Verification of the `csv-transformer` row-transformation pipeline

Shallow embedding of `src/index.js` (`transformCsv`, `transformCsvFile`),
of the reusable special-row processor builders (`skipIfAnyEmptyProcessor`,
two variants found in the sources), and proofs of the specification claims.

JavaScript values that can appear as record fields are modelled by `JsVal`
(`undefined`, `null`, strings and booleans cover everything this code
manipulates).  A record (JS object) is an association list with the usual
JS object semantics: property read returns the first binding or `undefined`,
property write updates an existing binding in place or appends a fresh one,
`for...in` iterates keys in insertion order.  The CSV codec (papaparse) and
the filesystem are external collaborators, modelled as function parameters
bundled in `Collab`, exactly as the spec treats them.
-/

set_option autoImplicit false

/-- JavaScript values occurring as record fields / transformer results. -/
inductive JsVal where
  | undef
  | nullV
  | str (s : String)
  | bool (b : Bool)
  deriving DecidableEq, Repr

/-- JS truthiness for the values of `JsVal` (`undefined`, `null` and the
empty string are falsy; any other string is truthy; booleans are
themselves). -/
def truthy : JsVal → Bool
  | .undef => false
  | .nullV => false
  | .str s => !(s == "")
  | .bool b => b

/-- Nullishness: `undefined` or `null` (the operand test of JS `??`). -/
def nullish : JsVal → Bool
  | .undef => true
  | .nullV => true
  | _ => false

/-- JS nullish coalescing `v ?? d`. -/
def nullishCoalesce (v d : JsVal) : JsVal :=
  if nullish v then d else v

/-- A record (JS object): insertion-ordered bindings from field name to value. -/
abbrev Row := List (String × JsVal)

/-- JS property read `row[k]`: first binding wins, `undefined` when absent. -/
def jsGet : Row → String → JsVal
  | [], _ => .undef
  | (k₀, v₀) :: t, k => if k₀ = k then v₀ else jsGet t k

/-- JS property write `row[k] = v`: replace the existing binding in place,
or append a fresh binding at the end. -/
def jsSet : Row → String → JsVal → Row
  | [], k, v => [(k, v)]
  | (k₀, v₀) :: t, k, v => if k₀ = k then (k, v) :: t else (k₀, v₀) :: jsSet t k v

/-- `Object.assign(target, src)`: write every binding of `src` onto `target`
in order. -/
def jsAssign (target src : Row) : Row :=
  src.foldl (fun acc kv => jsSet acc kv.1 kv.2) target

/-- Insertion into a JS `Set` of strings: append if not already present
(JS `Set` preserves insertion order). -/
def insertSet (l : List String) (k : String) : List String :=
  if k ∈ l then l else l ++ [k]

/-- Add a list of keys to an insertion-ordered set, in order. -/
def addKeys (l : List String) (ks : List String) : List String :=
  ks.foldl insertSet l

/-- The keys a JS `for...in` loop sees on a record: insertion order, each
key once. -/
def jsKeys (r : Row) : List String :=
  addKeys [] (r.map Prod.fst)

/-- A column transformer value, as branched on at src/index.js lines 85-90:
`true` copies the same-named input field, any other non-function value is a
literal, a function is called on the row.  The function receives two
parameters `(row, lastRow)` as documented in the README; the second models
the JS argument slot, `none` standing for `undefined`. -/
inductive Transformer where
  | copy
  | lit (v : JsVal)
  | fn (f : Row → Option Row → JsVal)

/-- The value the transformer branch of `transformCsv` assigns for one
rule entry (src/index.js lines 85-90).  Derived functions are called with
the single argument `row`, so their `lastRow` slot is `undefined`. -/
def ruleValue (name : String) (t : Transformer) (row : Row) : JsVal :=
  match t with
  | .copy => nullishCoalesce (jsGet row name) (.str "")
  | .lit v => v
  | .fn f => f row none

/-- `Object.entries(columnTransformers).forEach(...)` of src/index.js
lines 82-92: apply every rule entry in mapping order to the accumulating
output record. -/
def applyTransformers (rules : List (String × Transformer)) (row : Row) (init : Row) : Row :=
  rules.foldl (fun acc nt => jsSet acc nt.1 (ruleValue nt.1 nt.2 row)) init

/-- The `condition` slot of a special row processor: a boolean constant or
a function (again with a `lastRow` argument slot the engine leaves
`undefined`). -/
inductive JsCondition where
  | boolC (b : Bool)
  | funC (f : Row → Option Row → JsVal)

/-- A special row processor `{condition, finalData}`.  `finalData` may
return a record or `undefined` (`none`), as `() => {}` does in one source
variant. -/
structure SpecialProcessor where
  condition : JsCondition
  finalData : Row → Option Row → Option Row

/-- The match test of src/index.js lines 69-70:
`(typeof c === "boolean" && c) || (typeof c === "function" && c(row))`.
The engine calls the condition with the single argument `row`. -/
def condMatches (p : SpecialProcessor) (row : Row) : Bool :=
  match p.condition with
  | .boolC b => b
  | .funC f => truthy (f row none)

/-- The normal (non-special) transformation of one row
(src/index.js lines 78-92): seed from the input row when `isoColumns`,
then apply the column transformers. -/
def normalRow (rules : List (String × Transformer)) (iso : Bool) (row : Row) : Row :=
  applyTransformers rules row (if iso then jsAssign [] row else [])

/-- One iteration of the `map` callback of src/index.js lines 63-98,
producing the row's output record: the first matching special processor's
`finalData(row)` if any, otherwise the normal transformation.  `none`
models a `finalData` returning `undefined`. -/
def processRow (rules : List (String × Transformer)) (procs : List SpecialProcessor)
    (iso : Bool) (row : Row) : Option Row :=
  match procs.find? (fun p => condMatches p row) with
  | some p => p.finalData row none
  | none => some (normalRow rules iso row)

/-- The keys a row output contributes to the global column set:
`for (const key in x)` iterates nothing when `x` is `undefined`. -/
def rowKeysO : Option Row → List String
  | none => []
  | some r => jsKeys r

/-- One step of the per-row loop: emit the output record and register its
keys in the shared `columnNames` set. -/
def runStep (rules : List (String × Transformer)) (procs : List SpecialProcessor)
    (iso : Bool) (acc : List (Option Row) × List String) (row : Row) :
    List (Option Row) × List String :=
  let o := processRow rules procs iso row
  (acc.1 ++ [o], addKeys acc.2 (rowKeysO o))

/-- The whole per-row loop of `transformCsv`: the emitted output records in
order, paired with the accumulated `columnNames` set. -/
def runRows (rules : List (String × Transformer)) (procs : List SpecialProcessor)
    (iso : Bool) (data : List Row) : List (Option Row) × List String :=
  data.foldl (runStep rules procs iso) ([], [])

/-- A `removeColumns` entry: an exact string, a RegExp (modelled by its
match predicate), or any other value (which the `if/else if` of
src/index.js lines 100-108 ignores). -/
inductive RemovePattern where
  | exact (s : String)
  | regex (p : String → Bool)
  | other

/-- Whether a removal pattern deletes the name `n`. -/
def matchesPat (n : String) : RemovePattern → Bool
  | .exact s => n == s
  | .regex p => p n
  | .other => false

/-- Effect of one `removeColumns` entry on the column set
(src/index.js lines 100-108): a string deletes that one name, a RegExp
deletes every member it matches (the `forEach`/`delete` loop visits every
member and deletes exactly the matching ones), anything else is ignored. -/
def applyRemove (cols : List String) : RemovePattern → List String
  | .exact s => cols.filter (fun c => !(c == s))
  | .regex p => cols.filter (fun c => !(p c))
  | .other => cols

/-- Apply all `removeColumns` entries in list order. -/
def finalColumns (cols : List String) (rem : List RemovePattern) : List String :=
  rem.foldl applyRemove cols

/-- A name survives when no pattern in the list matches it. -/
def survivesAll (rem : List RemovePattern) (n : String) : Bool :=
  rem.all (fun p => !(matchesPat n p))

/-- First-contribution order of the column names of a sequence of output
records. -/
def firstContrib (outs : List (Option Row)) : List String :=
  addKeys [] (outs.flatMap rowKeysO)

/-- Result of the CSV codec's decode step: records plus diagnostics. -/
structure ParseResult where
  data : List Row
  errors : List String

/-- The external collaborators of the pipeline: filesystem read, codec
decode, codec encode (which receives the explicit output column order). -/
structure Collab where
  fsRead : String → String
  parse : String → ParseResult
  unparse : List (Option Row) → List String → String

/-- The options object of `transformCsv`.  `none` models an absent key, so
the destructuring defaults of src/index.js line 42 apply via `getD`. -/
structure Options where
  isFilePath : Option Bool := none
  specialRowProcessors : Option (List SpecialProcessor) := none
  isoColumns : Option Bool := none
  removeColumns : Option (List RemovePattern) := none

/-- src/index.js line 45: read the file when `isFilePath`, else the input
is the CSV content itself. -/
def resolveContent (c : Collab) (inputCsv : String) (o : Options) : String :=
  if o.isFilePath.getD false then c.fsRead inputCsv else inputCsv

/-- The list of output records `transformCsv` hands to the codec's encode
step (the `transformedData` of src/index.js line 63). -/
def transformedRecords (c : Collab) (inputCsv : String)
    (columnTransformers : List (String × Transformer)) (o : Options) : List (Option Row) :=
  (runRows columnTransformers (o.specialRowProcessors.getD [])
    (o.isoColumns.getD false) (c.parse (resolveContent c inputCsv o)).data).1

/-- The finalized output column ordering `transformCsv` hands to the
codec's encode step (`[...columnNames]` of src/index.js line 111). -/
def outputColumns (c : Collab) (inputCsv : String)
    (columnTransformers : List (String × Transformer)) (o : Options) : List String :=
  finalColumns
    (runRows columnTransformers (o.specialRowProcessors.getD [])
      (o.isoColumns.getD false) (c.parse (resolveContent c inputCsv o)).data).2
    (o.removeColumns.getD [])

/-- `transformCsv` of src/index.js lines 41-112: resolve content, decode,
transform every record, finalize the column set, encode. -/
def transformCsv (c : Collab) (inputCsv : String)
    (columnTransformers : List (String × Transformer)) (o : Options) : String :=
  c.unparse (transformedRecords c inputCsv columnTransformers o)
    (outputColumns c inputCsv columnTransformers o)

/-- The warning diagnostics `transformCsv` emits (src/index.js lines
57-59): one warning carrying the decode errors when that list is
non-empty, nothing otherwise. -/
def transformCsvWarnings (c : Collab) (inputCsv : String) (o : Options) : List (List String) :=
  if (c.parse (resolveContent c inputCsv o)).errors.isEmpty then []
  else [(c.parse (resolveContent c inputCsv o)).errors]

/-- The options object `{isFilePath: true, ...options}` built by
`transformCsvFile` (src/index.js lines 133-136): the spread lets a caller
key override the base `isFilePath: true`. -/
def mergedFileOptions (o : Options) : Options :=
  { o with isFilePath := some (o.isFilePath.getD true) }

/-- `transformCsvFile` of src/index.js lines 127-138: run `transformCsv`
on the input path with the merged options and write the result to the
output path.  The returned pair is the single `(path, content)` write it
performs; the JS function itself returns `undefined`. -/
def transformCsvFile (c : Collab) (inputPath outputPath : String)
    (columnTransformers : List (String × Transformer)) (o : Options) : String × String :=
  (outputPath, transformCsv c inputPath columnTransformers (mergedFileOptions o))

/-- One row under the last-row chaining the spec describes: the user
functions receive the previously emitted output record as their second
argument (`none` meaning absent). -/
def processRowChained (rules : List (String × Transformer)) (procs : List SpecialProcessor)
    (iso : Bool) (last : Option Row) (row : Row) : Option Row :=
  match procs.find? (fun p =>
      match p.condition with
      | .boolC b => b
      | .funC f => truthy (f row last)) with
  | some p => p.finalData row last
  | none =>
    some (rules.foldl (fun acc nt =>
      jsSet acc nt.1
        (match nt.2 with
         | .copy => nullishCoalesce (jsGet row nt.1) (.str "")
         | .lit v => v
         | .fn f => f row last))
      (if iso then jsAssign [] row else []))

/-- The per-row loop as the spec describes it ("Last Row: the most
recently emitted output record ... threaded into both `condition` and
`finalData`/rule functions for the next row.  Initially undefined/absent
for the first row").  Second, spec-side engine, to compare with `runRows`
(the engine embedded from the source). -/
def runRowsSpecChained (rules : List (String × Transformer)) (procs : List SpecialProcessor)
    (iso : Bool) (data : List Row) : List (Option Row) :=
  (data.foldl (fun (acc : List (Option Row) × Option Row) row =>
    let o := processRowChained rules procs iso acc.2 row
    (acc.1 ++ [o], o)) ([], none)).1

/-- JS `String.prototype.trim()`: drop leading and trailing whitespace
(structurally recursive so that concrete instances evaluate). -/
def jsTrim (s : String) : String :=
  ⟨((s.data.dropWhile Char.isWhitespace).reverse.dropWhile Char.isWhitespace).reverse⟩

/-- A special row processor whose condition may raise (`Except.error ()`
models a thrown `TypeError`); the type the `skipIfAnyEmptyProcessor`
builders actually inhabit. -/
structure SkipProcessor where
  condition : Row → Except Unit Bool
  finalData : Row → Option Row

namespace Generic0

/-- Evaluation of `headers.some((h) => (row[h] === null || row[h].trim() === ''))`
from src/unnamed/part_000 lines 10-12, in `Array.prototype.some` order with
short-circuit on the first `true` and abort at the first thrown
`TypeError` (`row[h].trim()` throws when `row[h]` is `undefined` or a
boolean). -/
def skipCondition (headers : List String) (row : Row) : Except Unit Bool :=
  match headers with
  | [] => .ok false
  | h :: t =>
    match jsGet row h with
    | .nullV => .ok true
    | .str s => if jsTrim s == "" then .ok true else skipCondition t row
    | _ => .error ()

/-- `skipIfAnyEmptyProcessor` of src/unnamed/part_000 lines 8-15:
condition as above, `finalData: (row) => ({})` returning an empty record. -/
def skipIfAnyEmptyProcessor (headers : List String) : SkipProcessor :=
  { condition := skipCondition headers
    finalData := fun _ => some [] }

end Generic0

namespace Generic1

/-- Evaluation of `headers.some(h => !row[h] || row[h].trim() === '')`
from src/unnamed/part_001 line 10: a falsy field (missing, null, empty
string, `false`) matches immediately; a truthy string is trimmed and
compared; `.trim()` on a truthy non-string (boolean `true`) throws. -/
def skipCondition (headers : List String) (row : Row) : Except Unit Bool :=
  match headers with
  | [] => .ok false
  | h :: t =>
    let v := jsGet row h
    if truthy v = false then .ok true
    else
      match v with
      | .str s => if jsTrim s == "" then .ok true else skipCondition t row
      | _ => .error ()

/-- `skipIfAnyEmptyProcessor` of src/unnamed/part_001 lines 8-13:
condition as above, `finalData: () => {}` — an arrow function whose body
is an empty block, returning `undefined` (`none`), not an empty object. -/
def skipIfAnyEmptyProcessor (headers : List String) : SkipProcessor :=
  { condition := skipCondition headers
    finalData := fun _ => none }

end Generic1

/-- A field value is "missing or blank after trimming" in the sense of the
spec sentence on the filter-style builder: absent (`undefined`), `null`,
or a string that trims to the empty string. -/
def missingOrBlank (v : JsVal) : Bool :=
  match v with
  | .undef => true
  | .nullV => true
  | .str s => jsTrim s == ""
  | .bool _ => false

/-! ## Lemmas about the record operations -/

theorem jsGet_jsSet_self (r : Row) (k : String) (v : JsVal) :
    jsGet (jsSet r k v) k = v := by
  induction r with
  | nil => simp [jsSet, jsGet]
  | cons hd t ih =>
    by_cases h : hd.1 = k
    · simp [jsSet, jsGet, h]
    · simp [jsSet, jsGet, h, ih]

theorem jsGet_jsSet_ne (r : Row) (k k₁ : String) (v : JsVal) (h : k₁ ≠ k) :
    jsGet (jsSet r k v) k₁ = jsGet r k₁ := by
  induction r with
  | nil => simp [jsSet, jsGet, Ne.symm h]
  | cons hd t ih =>
    obtain ⟨k₀, v₀⟩ := hd
    by_cases hk : k₀ = k
    · subst hk
      simp [jsSet, jsGet, Ne.symm h]
    · by_cases hk₁ : k₀ = k₁ <;> simp [jsSet, jsGet, hk, hk₁, ih, h]

theorem map_fst_jsSet (r : Row) (k : String) (v : JsVal) :
    (jsSet r k v).map Prod.fst =
      if k ∈ r.map Prod.fst then r.map Prod.fst else r.map Prod.fst ++ [k] := by
  induction r with
  | nil => simp [jsSet]
  | cons hd t ih =>
    obtain ⟨k₀, v₀⟩ := hd
    by_cases hk : k₀ = k
    · simp [jsSet, hk]
    · have hne : (k ∈ k₀ :: t.map Prod.fst) ↔ k ∈ t.map Prod.fst := by
        constructor
        · intro hm
          rcases List.mem_cons.mp hm with hm | hm
          · exact absurd hm.symm hk
          · exact hm
        · exact fun hm => List.mem_cons_of_mem _ hm
      simp only [jsSet, if_neg hk, List.map_cons, ih]
      by_cases hm : k ∈ t.map Prod.fst <;> simp [hm, hne]

theorem mem_map_fst_jsSet (r : Row) (k n : String) (v : JsVal) :
    n ∈ (jsSet r k v).map Prod.fst ↔ n ∈ r.map Prod.fst ∨ n = k := by
  rw [map_fst_jsSet]
  by_cases hm : k ∈ r.map Prod.fst
  · simp only [if_pos hm]
    constructor
    · exact fun h => Or.inl h
    · rintro (h | rfl)
      · exact h
      · exact hm
  · simp [if_neg hm, List.mem_append]

theorem jsSet_of_not_mem (r : Row) (k : String) (v : JsVal)
    (h : k ∉ r.map Prod.fst) : jsSet r k v = r ++ [(k, v)] := by
  induction r with
  | nil => simp [jsSet]
  | cons hd t ih =>
    simp only [List.map_cons, List.mem_cons, not_or] at h
    have h₁ : ¬hd.1 = k := fun hh => h.1 hh.symm
    simp [jsSet, h₁, ih h.2]

theorem mem_insertSet (l : List String) (k n : String) :
    n ∈ insertSet l k ↔ n ∈ l ∨ n = k := by
  unfold insertSet
  by_cases h : k ∈ l
  · simp only [if_pos h]
    constructor
    · exact fun hn => Or.inl hn
    · rintro (hn | rfl)
      · exact hn
      · exact h
  · simp [if_neg h, List.mem_append]

theorem mem_addKeys (l ks : List String) (n : String) :
    n ∈ addKeys l ks ↔ n ∈ l ∨ n ∈ ks := by
  induction ks generalizing l with
  | nil => simp [addKeys]
  | cons k t ih =>
    show n ∈ addKeys (insertSet l k) t ↔ _
    rw [ih, mem_insertSet]
    simp [List.mem_cons]
    tauto

theorem addKeys_append (l a b : List String) :
    addKeys l (a ++ b) = addKeys (addKeys l a) b :=
  List.foldl_append ..

theorem mem_jsKeys (r : Row) (n : String) :
    n ∈ jsKeys r ↔ n ∈ r.map Prod.fst := by
  unfold jsKeys
  rw [mem_addKeys]
  simp

theorem jsAssign_eq_append (t s : Row) (hn : (s.map Prod.fst).Nodup)
    (hd : ∀ k ∈ s.map Prod.fst, k ∉ t.map Prod.fst) : jsAssign t s = t ++ s := by
  induction s generalizing t with
  | nil => simp [jsAssign]
  | cons hd₀ s ih =>
    show jsAssign (jsSet t hd₀.1 hd₀.2) s = _
    rw [jsSet_of_not_mem t hd₀.1 hd₀.2 (hd hd₀.1 (by simp))]
    rw [List.map_cons, List.nodup_cons] at hn
    rw [ih (t ++ [(hd₀.1, hd₀.2)]) hn.2]
    · simp
    · intro k hk
      simp only [List.map_append, List.mem_append, not_or]
      refine ⟨hd k (by simp [hk]), ?_⟩
      simp only [List.map_cons, List.map_nil, List.mem_singleton]
      intro hkk
      exact hn.1 (hkk ▸ hk)

theorem jsAssign_nil_self (row : Row) (h : (row.map Prod.fst).Nodup) :
    jsAssign [] row = row := by
  simpa using jsAssign_eq_append [] row h (by simp)

/-! ## Lemmas about the transformer pass -/

theorem applyTransformers_get_of_not_mem (rules : List (String × Transformer)) (row init : Row)
    (name : String) (h : name ∉ rules.map Prod.fst) :
    jsGet (applyTransformers rules row init) name = jsGet init name := by
  induction rules generalizing init with
  | nil => simp [applyTransformers]
  | cons hd t ih =>
    simp only [List.map_cons, List.mem_cons, not_or] at h
    show jsGet (applyTransformers t row (jsSet init hd.1 (ruleValue hd.1 hd.2 row))) name = _
    rw [ih _ h.2, jsGet_jsSet_ne _ _ _ _ h.1]

theorem applyTransformers_get_rule (rules : List (String × Transformer)) (row init : Row)
    (name : String) (t : Transformer) (hn : (rules.map Prod.fst).Nodup)
    (hm : (name, t) ∈ rules) :
    jsGet (applyTransformers rules row init) name = ruleValue name t row := by
  induction rules generalizing init with
  | nil => cases hm
  | cons hd tl ih =>
    rw [List.map_cons, List.nodup_cons] at hn
    rcases List.mem_cons.mp hm with heq | hm₀
    · have hname : hd.1 = name := congrArg Prod.fst heq.symm
      have hnotin : name ∉ tl.map Prod.fst := hname ▸ hn.1
      show jsGet (applyTransformers tl row (jsSet init hd.1 (ruleValue hd.1 hd.2 row))) name = _
      rw [applyTransformers_get_of_not_mem _ _ _ _ hnotin, hname, ← heq, jsGet_jsSet_self]
    · exact ih _ hn.2 hm₀

theorem applyTransformers_keys_mono (rules : List (String × Transformer)) (row init : Row)
    (name : String) (h : name ∈ init.map Prod.fst) :
    name ∈ (applyTransformers rules row init).map Prod.fst := by
  induction rules generalizing init with
  | nil => exact h
  | cons hd t ih =>
    show name ∈ (applyTransformers t row (jsSet init hd.1 (ruleValue hd.1 hd.2 row))).map Prod.fst
    exact ih _ ((mem_map_fst_jsSet _ _ _ _).mpr (Or.inl h))

/-! ## Lemmas about the per-row loop and the column set -/

theorem foldl_runStep_fst (rules : List (String × Transformer)) (procs : List SpecialProcessor)
    (iso : Bool) (data : List Row) (acc : List (Option Row) × List String) :
    (data.foldl (runStep rules procs iso) acc).1 = acc.1 ++ data.map (processRow rules procs iso) := by
  induction data generalizing acc with
  | nil => simp
  | cons r t ih => simp [runStep, ih]

theorem foldl_runStep_snd (rules : List (String × Transformer)) (procs : List SpecialProcessor)
    (iso : Bool) (data : List Row) (acc : List (Option Row) × List String) :
    (data.foldl (runStep rules procs iso) acc).2 =
      addKeys acc.2 ((data.map (processRow rules procs iso)).flatMap rowKeysO) := by
  induction data generalizing acc with
  | nil => simp [addKeys]
  | cons r t ih => simp [runStep, ih, addKeys_append]

theorem runRows_fst (rules : List (String × Transformer)) (procs : List SpecialProcessor)
    (iso : Bool) (data : List Row) :
    (runRows rules procs iso data).1 = data.map (processRow rules procs iso) := by
  simpa [runRows] using foldl_runStep_fst rules procs iso data ([], [])

theorem runRows_snd (rules : List (String × Transformer)) (procs : List SpecialProcessor)
    (iso : Bool) (data : List Row) :
    (runRows rules procs iso data).2 = firstContrib (data.map (processRow rules procs iso)) := by
  simpa [runRows, firstContrib] using foldl_runStep_snd rules procs iso data ([], [])

/-! ## Lemmas about column removal -/

theorem applyRemove_eq_filter (cols : List String) (p : RemovePattern) :
    applyRemove cols p = cols.filter (fun c => !(matchesPat c p)) := by
  cases p <;> simp [applyRemove, matchesPat]

theorem finalColumns_eq_filter (cols : List String) (rem : List RemovePattern) :
    finalColumns cols rem = cols.filter (survivesAll rem) := by
  induction rem generalizing cols with
  | nil =>
    show cols = List.filter (survivesAll []) cols
    rw [show survivesAll [] = fun _ => true from rfl, List.filter_true]
  | cons p t ih =>
    show finalColumns (applyRemove cols p) t = _
    rw [ih, applyRemove_eq_filter, List.filter_filter]
    apply List.filter_congr
    intro c _
    simp only [survivesAll, List.all_cons]
    cases matchesPat c p <;> simp

/-- The first special processor whose condition matches is the one
`find?` returns, however the earlier (non-matching) and later entries
look. -/
theorem find_first_match (procs post : List SpecialProcessor) (p : SpecialProcessor) (row : Row)
    (hpre : ∀ q ∈ procs, condMatches q row = false) (hp : condMatches p row = true) :
    (procs ++ p :: post).find? (fun q => condMatches q row) = some p := by
  induction procs with
  | nil => simp [hp]
  | cons q t ih =>
    have hq : condMatches q row = false := hpre q (List.mem_cons_self q t)
    rw [List.cons_append, List.find?_cons_of_neg _ (by simp [hq])]
    exact ih (fun r hr => hpre r (List.mem_cons_of_mem _ hr))

/-- When no special processor matches, the row goes through the normal
transformation. -/
theorem processRow_of_no_match (rules : List (String × Transformer))
    (procs : List SpecialProcessor) (iso : Bool) (row : Row)
    (hns : ∀ p ∈ procs, condMatches p row = false) :
    processRow rules procs iso row = some (normalRow rules iso row) := by
  rw [processRow, List.find?_eq_none.mpr (fun p hp => by simp [hns p hp])]

/-! ## The claims -/

/-- Claim C3: for every input, the output record list `transformCsv` hands
to the codec's encode step is exactly the per-row map of the decoded
records — same length, rows never dropped (a special processor can make a
row's record empty or `undefined` but the position remains), and
`transformCsv` serializes exactly this list. -/
theorem C3_row_count_preserved (c : Collab) (inputCsv : String)
    (columnTransformers : List (String × Transformer)) (o : Options) :
    transformedRecords c inputCsv columnTransformers o =
      ((c.parse (resolveContent c inputCsv o)).data).map
        (processRow columnTransformers (o.specialRowProcessors.getD [])
          (o.isoColumns.getD false)) ∧
    (transformedRecords c inputCsv columnTransformers o).length =
      (c.parse (resolveContent c inputCsv o)).data.length ∧
    transformCsv c inputCsv columnTransformers o =
      c.unparse (transformedRecords c inputCsv columnTransformers o)
        (outputColumns c inputCsv columnTransformers o) := by
  refine ⟨runRows_fst .., ?_, rfl⟩
  rw [transformedRecords, runRows_fst, List.length_map]

/-- Claim C5: the first special processor whose condition matches (a
boolean `true`, or a function returning truthy) fully determines the
row's output via its `finalData`; the column transformers, the
`isoColumns` flag and the processors after the match are irrelevant. -/
theorem C5_special_precedence (rules₁ rules₂ : List (String × Transformer))
    (iso₁ iso₂ : Bool) (pre post₁ post₂ : List SpecialProcessor) (p : SpecialProcessor)
    (row : Row)
    (hpre : ∀ q ∈ pre, condMatches q row = false)
    (hp : condMatches p row = true) :
    processRow rules₁ (pre ++ p :: post₁) iso₁ row = p.finalData row none ∧
    processRow rules₁ (pre ++ p :: post₁) iso₁ row =
      processRow rules₂ (pre ++ p :: post₂) iso₂ row := by
  have h₁ : processRow rules₁ (pre ++ p :: post₁) iso₁ row = p.finalData row none := by
    rw [processRow, find_first_match pre post₁ p row hpre hp]
  have h₂ : processRow rules₂ (pre ++ p :: post₂) iso₂ row = p.finalData row none := by
    rw [processRow, find_first_match pre post₂ p row hpre hp]
  exact ⟨h₁, h₁.trans h₂.symm⟩

/-- Claim C10: a `removeColumns` entry that is neither a string nor a
RegExp is silently skipped by the `if/else if` chain: the column set, and
with it the whole `transformCsv` result, is the same as if the entry were
not there. -/
theorem C10_unknown_pattern_ignored (c : Collab) (inputCsv : String)
    (columnTransformers : List (String × Transformer))
    (ifp : Option Bool) (spr : Option (List SpecialProcessor)) (iso : Option Bool)
    (pre post : List RemovePattern) :
    outputColumns c inputCsv columnTransformers
        ⟨ifp, spr, iso, some (pre ++ RemovePattern.other :: post)⟩ =
      outputColumns c inputCsv columnTransformers ⟨ifp, spr, iso, some (pre ++ post)⟩ ∧
    transformCsv c inputCsv columnTransformers
        ⟨ifp, spr, iso, some (pre ++ RemovePattern.other :: post)⟩ =
      transformCsv c inputCsv columnTransformers ⟨ifp, spr, iso, some (pre ++ post)⟩ := by
  have hcols : ∀ cols : List String,
      finalColumns cols (pre ++ RemovePattern.other :: post) = finalColumns cols (pre ++ post) := by
    intro cols
    rw [finalColumns, finalColumns, List.foldl_append, List.foldl_append]
    rfl
  refine ⟨hcols _, ?_⟩
  show c.unparse _ _ = c.unparse _ _
  rw [show outputColumns c inputCsv columnTransformers
        ⟨ifp, spr, iso, some (pre ++ RemovePattern.other :: post)⟩ =
      outputColumns c inputCsv columnTransformers ⟨ifp, spr, iso, some (pre ++ post)⟩
    from hcols _]
  rfl

/-- Claim C4: on a row no special processor claims, a column configured as
the Copy marker (`true`) yields the input row's same-named field when that
field is present and non-null, and the empty string when it is absent or
null; the output field is never `null` or `undefined`.  Holds for either
value of `isoColumns` since rules overwrite the seeded values. -/
theorem C4_copy_rule (rules : List (String × Transformer)) (procs : List SpecialProcessor)
    (iso : Bool) (row : Row) (name : String)
    (hnr : (rules.map Prod.fst).Nodup)
    (hns : ∀ p ∈ procs, condMatches p row = false)
    (hcopy : (name, Transformer.copy) ∈ rules) :
    processRow rules procs iso row = some (normalRow rules iso row) ∧
    (nullish (jsGet row name) = false →
      jsGet (normalRow rules iso row) name = jsGet row name) ∧
    (nullish (jsGet row name) = true →
      jsGet (normalRow rules iso row) name = .str "") ∧
    jsGet (normalRow rules iso row) name ≠ .undef ∧
    jsGet (normalRow rules iso row) name ≠ .nullV := by
  have hval : jsGet (normalRow rules iso row) name = ruleValue name Transformer.copy row :=
    applyTransformers_get_rule _ _ _ _ _ hnr hcopy
  rw [ruleValue, nullishCoalesce] at hval
  refine ⟨processRow_of_no_match _ _ _ _ hns, ?_, ?_, ?_, ?_⟩
  · intro h; rw [hval, if_neg (by simp [h])]
  · intro h; rw [hval, if_pos (by simp [h])]
  · rw [hval]
    by_cases h : nullish (jsGet row name) = true
    · simp [h]
    · rw [if_neg (by simp_all)]
      intro hu
      rw [hu] at h
      exact h rfl
  · rw [hval]
    by_cases h : nullish (jsGet row name) = true
    · simp [h]
    · rw [if_neg (by simp_all)]
      intro hu
      rw [hu] at h
      exact h rfl

/-- Claim C6: with `isoColumns = true` and no matching special processor,
every input field whose name is not a key of the rule mapping appears in
the output with its input value (and stays present), and every name that
is a key of the mapping carries the rule's value, overwriting the
iso-copied one. -/
theorem C6_iso_columns (rules : List (String × Transformer)) (procs : List SpecialProcessor)
    (row : Row)
    (hnr : (rules.map Prod.fst).Nodup)
    (hrow : (row.map Prod.fst).Nodup)
    (hns : ∀ p ∈ procs, condMatches p row = false) :
    processRow rules procs true row = some (normalRow rules true row) ∧
    (∀ name, name ∉ rules.map Prod.fst →
      jsGet (normalRow rules true row) name = jsGet row name) ∧
    (∀ name, name ∈ row.map Prod.fst →
      name ∈ (normalRow rules true row).map Prod.fst) ∧
    (∀ name t, (name, t) ∈ rules →
      jsGet (normalRow rules true row) name = ruleValue name t row) := by
  have hinit : (if true then jsAssign [] row else []) = row := by
    rw [if_pos rfl, jsAssign_nil_self row hrow]
  refine ⟨processRow_of_no_match _ _ _ _ hns, ?_, ?_, ?_⟩
  · intro name hname
    rw [normalRow, applyTransformers_get_of_not_mem _ _ _ _ hname, hinit]
  · intro name hname
    exact applyTransformers_keys_mono _ _ _ _ (by rw [hinit]; exact hname)
  · intro name t hmem
    exact applyTransformers_get_rule _ _ _ _ _ hnr hmem

/-- Claim C7: a name is in the finalized output column ordering iff some
emitted output record contributed it and no `removeColumns` pattern
matches it; the surviving names keep their first-contribution order. -/
theorem C7_column_ordering (c : Collab) (inputCsv : String)
    (columnTransformers : List (String × Transformer)) (o : Options) (n : String) :
    (n ∈ outputColumns c inputCsv columnTransformers o ↔
      (∃ r ∈ transformedRecords c inputCsv columnTransformers o, n ∈ rowKeysO r) ∧
      ∀ p ∈ o.removeColumns.getD [], matchesPat n p = false) ∧
    outputColumns c inputCsv columnTransformers o =
      (firstContrib (transformedRecords c inputCsv columnTransformers o)).filter
        (survivesAll (o.removeColumns.getD [])) := by
  have heq : outputColumns c inputCsv columnTransformers o =
      (firstContrib (transformedRecords c inputCsv columnTransformers o)).filter
        (survivesAll (o.removeColumns.getD [])) := by
    rw [outputColumns, runRows_snd, finalColumns_eq_filter, transformedRecords, runRows_fst]
  refine ⟨?_, heq⟩
  rw [heq, List.mem_filter]
  constructor
  · rintro ⟨hmem, hsur⟩
    rw [firstContrib, mem_addKeys] at hmem
    rcases hmem with hmem | hmem
    · cases hmem
    · rw [List.mem_flatMap] at hmem
      obtain ⟨r, hr, hn⟩ := hmem
      refine ⟨⟨r, hr, hn⟩, ?_⟩
      intro p hp
      have := (List.all_eq_true.mp hsur) p hp
      simpa using this
  · rintro ⟨⟨r, hr, hn⟩, hsur⟩
    refine ⟨?_, ?_⟩
    · rw [firstContrib, mem_addKeys, List.mem_flatMap]
      exact Or.inr ⟨r, hr, hn⟩
    · rw [survivesAll, List.all_eq_true]
      intro p hp
      simpa using hsur p hp

/-- Claim C8: decode diagnostics are surfaced only on the warning channel
— exactly one warning, carrying the error list, iff that list is
non-empty — and the transformation's result is a function of the decoded
records alone: two collaborators agreeing on filesystem, encode and
decoded records (but with arbitrary, different error lists) give the same
`transformCsv` result. -/
theorem C8_decode_errors_nonfatal (c₁ c₂ : Collab) (inputCsv : String)
    (columnTransformers : List (String × Transformer)) (o : Options)
    (hun : c₁.unparse = c₂.unparse)
    (hdata : (c₁.parse (resolveContent c₁ inputCsv o)).data =
      (c₂.parse (resolveContent c₂ inputCsv o)).data) :
    transformCsv c₁ inputCsv columnTransformers o =
      transformCsv c₂ inputCsv columnTransformers o ∧
    (transformCsvWarnings c₁ inputCsv o ≠ [] ↔
      (c₁.parse (resolveContent c₁ inputCsv o)).errors ≠ []) ∧
    transformCsvWarnings c₁ inputCsv o =
      (if (c₁.parse (resolveContent c₁ inputCsv o)).errors.isEmpty then []
       else [(c₁.parse (resolveContent c₁ inputCsv o)).errors]) := by
  refine ⟨?_, ?_, rfl⟩
  · rw [transformCsv, transformCsv, hun, transformedRecords, transformedRecords,
      outputColumns, outputColumns, hdata]
  · rw [transformCsvWarnings]
    rcases h : (c₁.parse (resolveContent c₁ inputCsv o)).errors with _ | ⟨e, t⟩ <;>
      simp [h]

/-- A derived rule that reports whether its `lastRow` argument slot was
actually supplied by the engine. -/
def lastRowProbe : Transformer :=
  .fn (fun _ last =>
    match last with
    | none => .str "first"
    | some _ => .str "later")

def probeRules : List (String × Transformer) := [("v", lastRowProbe)]

def probeRow₁ : Row := [("x", JsVal.str "1")]

def probeRow₂ : Row := [("x", JsVal.str "2")]

/-- Claim C1 (code bug): src/index.js calls rule, condition and
`finalData` functions with the single argument `row`
(`transformerFn(row)`, `processor.condition(row)`,
`processor.finalData(row)`), so the `lastRow` argument is `undefined` for
every row — including rows `i > 0`, where the README and the spec say it
is the output record of row `i-1`.  On a two-row input with a rule that
inspects its `lastRow` slot, the engine embedded from the source yields
"first" for both rows, while the engine chained as the spec describes
yields "later" for the second row. -/
theorem C1_lastRow_always_undefined :
    (runRows probeRules [] false [probeRow₁, probeRow₂]).1 =
      [some [("v", JsVal.str "first")], some [("v", JsVal.str "first")]] ∧
    runRowsSpecChained probeRules [] false [probeRow₁, probeRow₂] =
      [some [("v", JsVal.str "first")], some [("v", JsVal.str "later")]] ∧
    (runRows probeRules [] false [probeRow₁, probeRow₂]).1 ≠
      runRowsSpecChained probeRules [] false [probeRow₁, probeRow₂] := by
  refine ⟨rfl, rfl, ?_⟩
  intro h
  rw [show (runRows probeRules [] false [probeRow₁, probeRow₂]).1 =
      [some [("v", JsVal.str "first")], some [("v", JsVal.str "first")]] from rfl,
    show runRowsSpecChained probeRules [] false [probeRow₁, probeRow₂] =
      [some [("v", JsVal.str "first")], some [("v", JsVal.str "later")]] from rfl] at h
  simp at h

/-- A collaborator whose decode step makes the raw content observable in
the final output: the content becomes the single field of the single
record, and encode prints that field back. -/
def echoCollab : Collab :=
  { fsRead := fun _ => "file content"
    parse := fun s => { data := [[("a", JsVal.str s)]], errors := [] }
    unparse := fun outs _ =>
      match outs with
      | [some [(_, JsVal.str s)]] => s
      | _ => "" }

/-- Claim C2 counterexample: `transformCsvFile` does not treat its input
as a path regardless of the options — the spread `{isFilePath: true,
...options}` lets a caller's `isFilePath: false` override the default, and
the path string itself is then transformed as CSV content.  With the
`echoCollab` collaborator, the content written is the path string, not
the transform of the on-disk content. -/
theorem C2_counterexample :
    transformCsvFile echoCollab "in.csv" "out.csv" [("a", Transformer.copy)]
        { isFilePath := some false } = ("out.csv", "in.csv") ∧
    transformCsv echoCollab "in.csv" [("a", Transformer.copy)]
        { isFilePath := some true } = "file content" ∧
    (transformCsvFile echoCollab "in.csv" "out.csv" [("a", Transformer.copy)]
        { isFilePath := some false }).2 ≠
      transformCsv echoCollab "in.csv" [("a", Transformer.copy)]
        { isFilePath := some true } := by
  refine ⟨rfl, rfl, ?_⟩
  intro h
  rw [show (transformCsvFile echoCollab "in.csv" "out.csv" [("a", Transformer.copy)]
        { isFilePath := some false }).2 = "in.csv" from rfl,
    show transformCsv echoCollab "in.csv" [("a", Transformer.copy)]
        { isFilePath := some true } = "file content" from rfl] at h
  simp at h

/-- Claim C2 (amended): unless the caller explicitly passes
`isFilePath: false` in the options object (which the spread in
`transformCsvFile` lets override the default `true`), `transformCsvFile`
treats its input as a filesystem path, and its single write is the
transformed text to the output path. -/
theorem C2_amended_file_path (c : Collab) (inputPath outputPath : String)
    (columnTransformers : List (String × Transformer)) (o : Options)
    (h : o.isFilePath ≠ some false) :
    transformCsvFile c inputPath outputPath columnTransformers o =
      (outputPath,
        transformCsv c inputPath columnTransformers { o with isFilePath := some true }) := by
  have hfp : o.isFilePath.getD true = true := by
    rcases ho : o.isFilePath with _ | b
    · rfl
    · cases b
      · exact absurd ho h
      · rfl
  rw [transformCsvFile, mergedFileOptions, hfp]

/-- Witness for C2 (amended): with no `isFilePath` key in the options,
`transformCsvFile` reads from disk. -/
theorem C2_amended_file_path_witness :
    (({} : Options).isFilePath ≠ some false) ∧
    transformCsvFile echoCollab "in.csv" "out.csv" [("a", Transformer.copy)] {} =
      ("out.csv",
        transformCsv echoCollab "in.csv" [("a", Transformer.copy)]
          { ({} : Options) with isFilePath := some true }) :=
  ⟨by simp, C2_amended_file_path echoCollab "in.csv" "out.csv" [("a", Transformer.copy)] {}
    (by simp)⟩

/-- The part_001 condition evaluates the same test `missingOrBlank` does,
header by header, as long as no inspected field is boolean-valued (CSV
fields never are); in particular it never throws on such rows. -/
theorem generic1_condition_spec (headers : List String) (row : Row)
    (hb : ∀ h ∈ headers, ∀ b, jsGet row h ≠ JsVal.bool b) :
    Generic1.skipCondition headers row =
      Except.ok (headers.any (fun h => missingOrBlank (jsGet row h))) := by
  induction headers with
  | nil => rfl
  | cons h t ih =>
    have hbt : ∀ h₀ ∈ t, ∀ b, jsGet row h₀ ≠ JsVal.bool b :=
      fun h₀ hh₀ => hb h₀ (List.mem_cons_of_mem _ hh₀)
    rw [List.any_cons]
    rcases hv : jsGet row h with _ | _ | s | b
    · simp [Generic1.skipCondition, hv, truthy, missingOrBlank]
    · simp [Generic1.skipCondition, hv, truthy, missingOrBlank]
    · by_cases hs : s = ""
      · subst hs
        simp [Generic1.skipCondition, hv, truthy, missingOrBlank, jsTrim]
      · by_cases htr : jsTrim s == ""
        · simp [Generic1.skipCondition, hv, truthy, hs, htr, missingOrBlank]
        · simp [Generic1.skipCondition, hv, truthy, hs, htr, missingOrBlank, ih hbt]
    · exact absurd hv (hb h (List.mem_cons_self h t) b)

/-- The part_000 condition evaluates the same test when no inspected
field is missing or boolean-valued; a missing first field makes it
throw instead. -/
theorem generic0_condition_spec (headers : List String) (row : Row)
    (hu : ∀ h ∈ headers, jsGet row h ≠ JsVal.undef)
    (hb : ∀ h ∈ headers, ∀ b, jsGet row h ≠ JsVal.bool b) :
    Generic0.skipCondition headers row =
      Except.ok (headers.any (fun h => missingOrBlank (jsGet row h))) := by
  induction headers with
  | nil => rfl
  | cons h t ih =>
    have hut : ∀ h₀ ∈ t, jsGet row h₀ ≠ JsVal.undef :=
      fun h₀ hh₀ => hu h₀ (List.mem_cons_of_mem _ hh₀)
    have hbt : ∀ h₀ ∈ t, ∀ b, jsGet row h₀ ≠ JsVal.bool b :=
      fun h₀ hh₀ => hb h₀ (List.mem_cons_of_mem _ hh₀)
    rw [List.any_cons]
    rcases hv : jsGet row h with _ | _ | s | b
    · exact absurd hv (hu h (List.mem_cons_self h t))
    · simp [Generic0.skipCondition, hv, missingOrBlank]
    · by_cases htr : jsTrim s == ""
      · simp [Generic0.skipCondition, hv, htr, missingOrBlank]
      · simp [Generic0.skipCondition, hv, htr, missingOrBlank, ih hut hbt]
    · exact absurd hv (hb h (List.mem_cons_self h t) b)

/-- Claim C9 counterexample: on the empty row, where the listed field "A"
is missing, the part_000 builder's condition does not return `true` as
the claim requires: `row["A"].trim()` throws a `TypeError` (modelled by
`Except.error`), because `undefined === null` is false and `undefined`
has no `.trim`. -/
theorem C9_counterexample :
    (Generic0.skipIfAnyEmptyProcessor ["A"]).condition [] = Except.error () ∧
    (Generic0.skipIfAnyEmptyProcessor ["A"]).condition [] ≠ Except.ok true := by
  refine ⟨rfl, ?_⟩
  intro h
  rw [show (Generic0.skipIfAnyEmptyProcessor ["A"]).condition [] = Except.error () from rfl] at h
  exact Except.noConfusion h

/-- Claim C9 (amended): the part_001 builder's condition returns `true`
exactly when some listed field is missing, null or blank after trimming,
and never throws, provided no listed field holds a boolean (CSV fields
are strings); its `finalData`, an arrow function with an empty block
body, returns `undefined`, not an empty record.  The part_000 builder's
`finalData` does return an empty record; its condition agrees with the
same missing-or-blank test when no listed field is missing, but throws a
`TypeError` as soon as the first listed field it inspects is missing. -/
theorem C9_amended_skip_processor (headers : List String) (row : Row)
    (hb : ∀ h ∈ headers, ∀ b, jsGet row h ≠ JsVal.bool b) :
    ((Generic1.skipIfAnyEmptyProcessor headers).condition row = Except.ok true ↔
      ∃ h ∈ headers, missingOrBlank (jsGet row h) = true) ∧
    ((Generic1.skipIfAnyEmptyProcessor headers).condition row = Except.ok true ∨
      (Generic1.skipIfAnyEmptyProcessor headers).condition row = Except.ok false) ∧
    (∀ r : Row, (Generic1.skipIfAnyEmptyProcessor headers).finalData r = none) ∧
    (∀ r : Row, (Generic0.skipIfAnyEmptyProcessor headers).finalData r = some []) ∧
    ((∀ h ∈ headers, jsGet row h ≠ JsVal.undef) →
      ((Generic0.skipIfAnyEmptyProcessor headers).condition row = Except.ok true ↔
        ∃ h ∈ headers, missingOrBlank (jsGet row h) = true)) ∧
    (∀ h t, headers = h :: t → jsGet row h = JsVal.undef →
      (Generic0.skipIfAnyEmptyProcessor headers).condition row = Except.error ()) := by
  have h₁ := generic1_condition_spec headers row hb
  refine ⟨?_, ?_, fun _ => rfl, fun _ => rfl, ?_, ?_⟩
  · show Generic1.skipCondition headers row = Except.ok true ↔ _
    rw [h₁]
    constructor
    · intro h
      have : headers.any (fun h => missingOrBlank (jsGet row h)) = true :=
        Except.ok.injEq .. ▸ (by injection h)
      simpa using List.any_eq_true.mp this
    · intro h
      have : headers.any (fun h => missingOrBlank (jsGet row h)) = true :=
        List.any_eq_true.mpr (by simpa using h)
      rw [this]
  · show Generic1.skipCondition headers row = Except.ok true ∨
      Generic1.skipCondition headers row = Except.ok false
    rw [h₁]
    rcases headers.any (fun h => missingOrBlank (jsGet row h)) with _ | _
    · exact Or.inr rfl
    · exact Or.inl rfl
  · intro hu
    show Generic0.skipCondition headers row = Except.ok true ↔ _
    rw [generic0_condition_spec headers row hu hb]
    constructor
    · intro h
      have : headers.any (fun h => missingOrBlank (jsGet row h)) = true := by injection h
      simpa using List.any_eq_true.mp this
    · intro h
      have : headers.any (fun h => missingOrBlank (jsGet row h)) = true :=
        List.any_eq_true.mpr (by simpa using h)
      rw [this]
  · intro h t ht hget
    subst ht
    show Generic0.skipCondition (h :: t) row = Except.error ()
    rw [Generic0.skipCondition, hget]

/-- Witness for C9 (amended), at `headers = ["A"]` and a row whose "A"
field is a pure-whitespace string: both conditions answer `true`, the
part_001 `finalData` gives `undefined` and the part_000 one gives the
empty record. -/
theorem C9_amended_skip_processor_witness :
    (∀ h ∈ ["A"], ∀ b, jsGet [("A", JsVal.str " ")] h ≠ JsVal.bool b) ∧
    (((Generic1.skipIfAnyEmptyProcessor ["A"]).condition [("A", JsVal.str " ")] = Except.ok true ↔
        ∃ h ∈ ["A"], missingOrBlank (jsGet [("A", JsVal.str " ")] h) = true) ∧
      ((Generic1.skipIfAnyEmptyProcessor ["A"]).condition [("A", JsVal.str " ")] = Except.ok true ∨
        (Generic1.skipIfAnyEmptyProcessor ["A"]).condition [("A", JsVal.str " ")] = Except.ok false) ∧
      (∀ r : Row, (Generic1.skipIfAnyEmptyProcessor ["A"]).finalData r = none) ∧
      (∀ r : Row, (Generic0.skipIfAnyEmptyProcessor ["A"]).finalData r = some []) ∧
      ((∀ h ∈ ["A"], jsGet [("A", JsVal.str " ")] h ≠ JsVal.undef) →
        ((Generic0.skipIfAnyEmptyProcessor ["A"]).condition [("A", JsVal.str " ")] = Except.ok true ↔
          ∃ h ∈ ["A"], missingOrBlank (jsGet [("A", JsVal.str " ")] h) = true)) ∧
      (∀ h t, ["A"] = h :: t → jsGet [("A", JsVal.str " ")] h = JsVal.undef →
        (Generic0.skipIfAnyEmptyProcessor ["A"]).condition [("A", JsVal.str " ")] =
          Except.error ())) :=
  ⟨by decide, C9_amended_skip_processor ["A"] [("A", JsVal.str " ")] (by decide)⟩

def c4Rules : List (String × Transformer) := [("A", Transformer.copy), ("B", Transformer.copy)]

def c4Row : Row := [("A", JsVal.str "v"), ("B", JsVal.nullV)]

/-- Witness for C4 at a concrete row whose "A" field is present. -/
theorem C4_copy_rule_witness :
    (c4Rules.map Prod.fst).Nodup ∧ ("A", Transformer.copy) ∈ c4Rules ∧
    (processRow c4Rules [] false c4Row = some (normalRow c4Rules false c4Row) ∧
      (nullish (jsGet c4Row "A") = false →
        jsGet (normalRow c4Rules false c4Row) "A" = jsGet c4Row "A") ∧
      (nullish (jsGet c4Row "A") = true →
        jsGet (normalRow c4Rules false c4Row) "A" = .str "") ∧
      jsGet (normalRow c4Rules false c4Row) "A" ≠ .undef ∧
      jsGet (normalRow c4Rules false c4Row) "A" ≠ .nullV) :=
  ⟨by decide, List.mem_cons_self _ _,
    C4_copy_rule c4Rules [] false c4Row "A" (by decide) (fun _ hp => nomatch hp)
      (List.mem_cons_self _ _)⟩

def c5NoMatch : SpecialProcessor :=
  { condition := .funC (fun r _ => jsGet r "skip")
    finalData := fun _ _ => some [("Z", JsVal.str "z")] }

def c5Match : SpecialProcessor :=
  { condition := .boolC true
    finalData := fun r _ => some [("S", jsGet r "x")] }

def c5Other : SpecialProcessor :=
  { condition := .boolC true
    finalData := fun _ _ => some [("T", JsVal.str "t")] }

def c5Row : Row := [("x", JsVal.str "1")]

/-- Witness for C5 at a concrete processor list whose first entry does not
match and second does. -/
theorem C5_special_precedence_witness :
    (∀ q ∈ [c5NoMatch], condMatches q c5Row = false) ∧
    condMatches c5Match c5Row = true ∧
    (processRow [("A", Transformer.copy)] ([c5NoMatch] ++ c5Match :: [c5Other]) true c5Row =
        c5Match.finalData c5Row none ∧
      processRow [("A", Transformer.copy)] ([c5NoMatch] ++ c5Match :: [c5Other]) true c5Row =
        processRow [] ([c5NoMatch] ++ c5Match :: []) false c5Row) :=
  ⟨by decide, rfl,
    C5_special_precedence [("A", Transformer.copy)] [] true false [c5NoMatch] [c5Other] []
      c5Match c5Row (by decide) rfl⟩

def c6Rules : List (String × Transformer) :=
  [("Age", Transformer.fn (fun _ _ => JsVal.str "26"))]

def c6Row : Row := [("Name", JsVal.str "John"), ("Age", JsVal.str "25")]

/-- Witness for C6 at a concrete two-field row where one field is kept by
iso-columns and the other is overwritten by a rule. -/
theorem C6_iso_columns_witness :
    (c6Rules.map Prod.fst).Nodup ∧ (c6Row.map Prod.fst).Nodup ∧
    (processRow c6Rules [] true c6Row = some (normalRow c6Rules true c6Row) ∧
      (∀ name, name ∉ c6Rules.map Prod.fst →
        jsGet (normalRow c6Rules true c6Row) name = jsGet c6Row name) ∧
      (∀ name, name ∈ c6Row.map Prod.fst →
        name ∈ (normalRow c6Rules true c6Row).map Prod.fst) ∧
      (∀ name t, (name, t) ∈ c6Rules →
        jsGet (normalRow c6Rules true c6Row) name = ruleValue name t c6Row)) :=
  ⟨by decide, by decide,
    C6_iso_columns c6Rules [] c6Row (by decide) (by decide) (fun _ hp => nomatch hp)⟩

def c8Collab₁ : Collab :=
  { fsRead := fun _ => ""
    parse := fun _ => { data := [[("a", JsVal.str "x")]], errors := ["bad line"] }
    unparse := fun _ cols => String.intercalate "," cols }

def c8Collab₂ : Collab :=
  { fsRead := fun _ => ""
    parse := fun _ => { data := [[("a", JsVal.str "x")]], errors := [] }
    unparse := fun _ cols => String.intercalate "," cols }

/-- Witness for C8: a collaborator that reports a decode error and one
that does not, agreeing on the decoded records, give the same transform
result, and only the former produces a warning. -/
theorem C8_decode_errors_nonfatal_witness :
    transformCsv c8Collab₁ "in" [("a", Transformer.copy)] {} =
      transformCsv c8Collab₂ "in" [("a", Transformer.copy)] {} ∧
    (transformCsvWarnings c8Collab₁ "in" {} ≠ [] ↔
      (c8Collab₁.parse (resolveContent c8Collab₁ "in" {})).errors ≠ []) ∧
    transformCsvWarnings c8Collab₁ "in" {} =
      (if (c8Collab₁.parse (resolveContent c8Collab₁ "in" {})).errors.isEmpty then []
       else [(c8Collab₁.parse (resolveContent c8Collab₁ "in" {})).errors]) :=
  C8_decode_errors_nonfatal c8Collab₁ c8Collab₂ "in" [("a", Transformer.copy)] {} rfl rfl
